import Mathlib

set_option maxHeartbeats 1000000

/-!
Shallow embedding of the Document Context Engine of `src/backend/server.js`
(ExplainX backend): in-memory document store lifecycle, mention parsing,
context assembly and the two-tier answer pipeline (completion attempt with
keyword/paragraph fallback search).

JavaScript strings are modelled as `List Char` / `String`; the enumeration
order of the `documentStore` object (string keys, insertion order) is
modelled as a `List` of records; JavaScript numbers in the fallback scores
are modelled as exact rationals.
-/

namespace ExplainX

/-- Whitespace test for space, tab, newline and carriage return, modelling
the JavaScript whitespace class for the inputs of this development. -/
def wsChar (c : Char) : Bool := c == ' ' || c == '\t' || c == '\n' || c == '\r'

/-- Lowercasing of a character list, modelling `toLowerCase` on ASCII data. -/
def lowerL (cs : List Char) : List Char := cs.map Char.toLower

/-- `chPrefix pat l` holds when `pat` is a prefix of `l`. -/
def chPrefix : List Char → List Char → Bool
  | [], _ => true
  | _ :: _, [] => false
  | a :: as, b :: bs => a == b && chPrefix as bs

/-- `chIncludes pat hay`: `pat` occurs as a contiguous substring of `hay`,
modelling `String.prototype.includes`. -/
def chIncludes (pat : List Char) : List Char → Bool
  | [] => pat.isEmpty
  | c :: cs => chPrefix pat (c :: cs) || chIncludes pat cs

/-- `strIncludes hay pat`: `hay.includes(pat)` in JavaScript. -/
def strIncludes (hay pat : String) : Bool := chIncludes pat.toList hay.toList

/-- Remove leading and trailing whitespace, modelling `String.prototype.trim`. -/
def trimChars (cs : List Char) : List Char :=
  ((cs.dropWhile wsChar).reverse.dropWhile wsChar).reverse

/-- `trim` on strings. -/
def strTrim (s : String) : String := String.mk (trimChars s.toList)

/-- `s.substring(0, n)` in JavaScript: the first `min n (length s)` characters. -/
def strTake (s : String) (n : Nat) : String := String.mk (s.toList.take n)

/-- One entry of the in-memory `documentStore` (`server.js:83-88`, `255-260`). -/
structure DocRecord where
  id : String
  name : String
  text : String
  uploadDate : Nat
deriving Repr, DecidableEq

/-- The `documentStore` object: records in key-insertion (enumeration) order. -/
abbrev DocumentStore := List DocRecord

/-- `documentStore[docId] = record`: replace the record at an existing key in
place, otherwise append at the end (JavaScript object key insertion order). -/
def upsert : DocumentStore → DocRecord → DocumentStore
  | [], r => [r]
  | x :: xs, r => if x.id = r.id then r :: xs else x :: upsert xs r

/-- `Date.now() + '-' + fileName` (`server.js:82`, `server.js:254`): the
document id generated at ingestion time. -/
def makeDocId (now : Nat) (name : String) : String :=
  toString now ++ "-" ++ name

/-- Placeholder text stored when extraction yields nothing (`server.js:76`). -/
def emptyPlaceholder (fileName : String) : String :=
  "[Empty or unreadable document: " ++ fileName ++ "]"

/-- Store update performed by `processDocument` (`server.js:73-88`): empty or
whitespace-only extracted text is replaced by the placeholder, then the record
is stored under `Date.now() + '-' + fileName`. -/
def processDocumentStore (store : DocumentStore) (now : Nat)
    (fileName extracted : String) : DocumentStore :=
  let text := if strTrim extracted = "" then emptyPlaceholder fileName else extracted
  upsert store ⟨makeDocId now fileName, fileName, text, now⟩

/-- Store update performed by the `/api/upload` handler (`server.js:253-260`):
the extracted text is stored verbatim, with no placeholder substitution. -/
def uploadStore (store : DocumentStore) (now : Nat)
    (originalname extracted : String) : DocumentStore :=
  upsert store ⟨makeDocId now originalname, originalname, extracted, now⟩

/-- Deletion branch of the `fs.watch` callback (`server.js:136-143`):
`Object.keys(documentStore).find(key => key.includes(filename))` followed by
`delete documentStore[docId]` — removes the first record in enumeration order
whose id contains the filename as a substring, if any. -/
def removeByFileName : DocumentStore → String → DocumentStore
  | [], _ => []
  | r :: rs, fn =>
      if strIncludes r.id fn then rs else r :: removeByFileName rs fn

/-! ### Mention parsing (`server.js:471-482`)

The regular expression `/@([^\s]+)/` finds the leftmost position where an
`'@'` is immediately followed by at least one non-whitespace character; the
capture is the maximal run of non-whitespace characters after that `'@'`. -/

/-- Leftmost match of `/@([^\s]+)/`: returns `(prefix, token, rest)` where the
input is `prefix ++ '@' :: token ++ rest`, or `none` when there is no match. -/
def findMention : List Char → Option (List Char × List Char × List Char)
  | [] => none
  | c :: cs =>
      if c == '@' && !(cs.takeWhile (fun d => !wsChar d)).isEmpty then
        some ([], cs.takeWhile (fun d => !wsChar d), cs.dropWhile (fun d => !wsChar d))
      else
        match findMention cs with
        | none => none
        | some (p, t, r) => some (c :: p, t, r)

/-- `cleanedMessage` (`server.js:475-482`): when the mention regex matches,
the matched `@token` substring is removed and the result trimmed; otherwise
the message is left untouched. -/
def cleanedOf (message : String) : String :=
  match findMention message.toList with
  | some (p, _, r) => String.mk (trimChars (p ++ r))
  | none => message

/-- Records whose lowercased name contains the lowercased target as a
substring (`server.js:485-488`, recomputed at `server.js:507-510`). -/
def mentionTargets (store : DocumentStore) (tok : List Char) : List DocRecord :=
  store.filter (fun r => chIncludes (lowerL tok) (lowerL r.name.toList))

/-! ### Fallback search (`server.js:627-718`) -/

/-- Split into maximal whitespace-separated words, modelling
`split(/\s+/)` followed by discarding empty fragments (every fragment kept by
the keyword filter has length greater than 3, so empties never survive). -/
def wordsAux (acc : List Char) : List Char → List (List Char)
  | [] => if acc.isEmpty then [] else [acc.reverse]
  | c :: cs =>
      if wsChar c then
        if acc.isEmpty then wordsAux [] cs else acc.reverse :: wordsAux [] cs
      else wordsAux (c :: acc) cs

/-- The words of a character list. -/
def wordsOf (cs : List Char) : List (List Char) := wordsAux [] cs

/-- `cleanedMessage.toLowerCase().split(/\s+/).filter(word => word.length > 3)`
(`server.js:627`). -/
def keywordsOf (cs : List Char) : List (List Char) :=
  (wordsOf (lowerL cs)).filter (fun w => 3 < w.length)

/-- Split on runs of two or more newlines, modelling `split(/\n\n+/)`
(`server.js:642`); the regex is greedy, so a whole run of newlines is one
separator. One structural pass: `acc` holds the current fragment reversed,
`pending` counts newlines seen but not yet committed (a single newline stays
inside the fragment, a run of two or more is a separator). -/
def splitParasGo (acc : List Char) (pending : Nat) : List Char → List (List Char)
  | [] =>
      if 2 ≤ pending then [acc.reverse, []]
      else [(List.replicate pending '\n' ++ acc).reverse]
  | c :: cs =>
      if c == '\n' then splitParasGo acc (pending + 1) cs
      else if 2 ≤ pending then acc.reverse :: splitParasGo [c] 0 cs
      else splitParasGo (c :: (List.replicate pending '\n' ++ acc)) 0 cs

/-- `text.split(/\n\n+/)`. -/
def splitParas (cs : List Char) : List (List Char) := splitParasGo [] 0 cs

/-- Paragraphs of a document text that survive the fallback filter:
split on blank lines, trim, keep only those longer than 30 characters
(`server.js:642-644`). -/
def keptParas (text : String) : List (List Char) :=
  ((splitParas text.toList).map trimChars).filter (fun p => 30 < p.length)

/-- Number of keyword list entries (with multiplicity) present in the
lowercased paragraph (`server.js:652-653`). -/
def matchCountMult (kws : List (List Char)) (p : List Char) : Nat :=
  (kws.filter (fun k => chIncludes k (lowerL p))).length

/-- `/[A-Z][A-Z]/.test(paragraph)`: two consecutive ASCII uppercase letters. -/
def hasDoubleUpper : List Char → Bool
  | a :: b :: rest => (a.isUpper && b.isUpper) || hasDoubleUpper (b :: rest)
  | _ => false

/-- Relevance score of a paragraph (`server.js:658-675`), accumulated exactly
as in the source: base match count, exponential bonus and density bonus when
more than one keyword matches, and a fixed heading bonus for short paragraphs
containing a colon or two consecutive uppercase letters. JavaScript numbers
are modelled as exact rationals. -/
def scoreOf (kws : List (List Char)) (p : List Char) : ℚ :=
  let m := matchCountMult kws p
  let s1 : ℚ := (m : ℚ)
  let s2 := if 1 < m then s1 + (2 : ℚ) ^ (m - 1) else s1
  let s3 := if 1 < m then s2 + 500 / ((p.length : ℚ) + 1) else s2
  if p.length < 200 ∧ 20 < p.length ∧ (p.contains ':' = true ∨ hasDoubleUpper p = true)
  then s3 + 2 else s3

/-- One entry of `matchingParagraphs` (`server.js:678-682`). -/
structure RankedPassage where
  text : List Char
  score : ℚ
  source : String
deriving Repr, DecidableEq

/-- `matchingParagraphs` (`server.js:631-685`): for every document of the
store in enumeration order, every kept paragraph with at least one keyword
match yields a scored passage tagged with the document name. -/
def fallbackMatches (store : DocumentStore) (q : List Char) : List RankedPassage :=
  let kws := keywordsOf q
  (store.map (fun d =>
    (keptParas d.text).filterMap (fun p =>
      if 0 < matchCountMult kws p then some ⟨p, scoreOf kws p, d.name⟩ else none))).flatten

/-- Stable insertion into a list sorted by descending score. -/
def insertDesc (x : RankedPassage) : List RankedPassage → List RankedPassage
  | [] => [x]
  | y :: ys => if x.score < y.score then y :: insertDesc x ys else x :: y :: ys

/-- Stable sort by descending score, modelling
`matchingParagraphs.sort((a, b) => b.score - a.score)` (`server.js:690`). -/
def sortDesc : List RankedPassage → List RankedPassage
  | [] => []
  | x :: xs => insertDesc x (sortDesc xs)

/-- `topResults` (`server.js:693`): the five best passages. -/
def topResults (store : DocumentStore) (q : List Char) : List RankedPassage :=
  (sortDesc (fallbackMatches store q)).take 5

/-- First occurrence deduplication, modelling `[...new Set(xs)]`. -/
def uniqFirstAux (seen : List String) : List String → List String
  | [] => []
  | s :: rest =>
      if seen.contains s then uniqFirstAux seen rest
      else s :: uniqFirstAux (s :: seen) rest

/-- `[...new Set(topResults.map(result => result.source))]` (`server.js:705`). -/
def uniqFirst (xs : List String) : List String := uniqFirstAux [] xs

/-- The numbered sections of the fallback answer (`server.js:699-702`). -/
def sectionsText : Nat → List RankedPassage → String
  | _, [] => ""
  | i, r :: rest =>
      toString (i + 1) ++ ". From \"" ++ r.source ++ "\": "
        ++ String.mk (trimChars r.text) ++ "\n\n" ++ sectionsText (i + 1) rest

/-- The composed fallback answer (`server.js:695-709`). -/
def composeFallback (cleaned : String) (tops : List RankedPassage) : String :=
  "Based on your question about \"" ++ cleaned
    ++ "\", I found these relevant sections:\n\n"
    ++ sectionsText 0 tops
    ++ "Information was found in the following document(s): "
    ++ String.intercalate ", " (uniqFirst (tops.map (fun r => r.source)))
    ++ ".\n\n"
    ++ "If you need more specific details, please ask a more focused question."

/-! ### The chat endpoint (`server.js:456-813`) -/

/-- Answer returned when the store is empty or the assembled context is blank
(`server.js:467`, `server.js:537`). -/
def noDocsMsg : String :=
  "No documents have been uploaded yet. Please upload some documents first."

/-- Answer returned when a mention matches no stored document
(`server.js:493`). -/
def notFoundMsg (target : String) : String :=
  "I couldn't find any document matching \"" ++ target
    ++ "\". Please check the document name and try again."

/-- Answer returned when the Groq API key is missing (`server.js:546`). -/
def apiKeyMsg : String := "API configuration error. Please contact support."

/-- Fixed answer when the fallback search finds nothing (`server.js:711`). -/
def noMatchMsg : String :=
  "I couldn't find information in the documents that directly matches your query. Please try rephrasing your question or ask about a different topic covered in the documents."

/-- Last-resort answer when the fallback search itself throws
(`server.js:717`); the embedded search is total, so this branch is modelled
as unreachable. -/
def apologyMsg : String :=
  "I encountered an error searching through the documents. Please try a simpler question or check that your documents contain relevant information."

/-- Provenance note appended to a successful completion (`server.js:618`). -/
def groqNote : String :=
  "\n\nThis response was generated using Groq's AI based on information from your documents."

/-- `documentContext` (`server.js:503-528`): the targeted document's text when
a mention resolved, otherwise the concatenation of every stored text joined by
blank lines. -/
def ctxOf (store : DocumentStore) (message : String) : String :=
  match findMention message.toList with
  | some (_, tok, _) =>
      match mentionTargets store tok with
      | [] => String.intercalate "\n\n" (store.map (fun d => d.text))
      | d :: _ => d.text
  | none => String.intercalate "\n\n" (store.map (fun d => d.text))

/-- The user prompt of the completion request (`server.js:576-581`): the
template literal embeds `documentContext.substring(0, 1500)` (a stray source
comment is part of the literal) and the cleaned question. -/
def buildUserMessage (ctx cleaned : String) : String :=
  "I have the following document content:\n" ++ strTake ctx 1500
    ++ " //User Role: Provides truncated document context (1,500 chars) and the question.\n\nMy question is: "
    ++ cleaned
    ++ "\n\nPlease answer based only on the information in these documents."

/-- The user prompt the handler would send for a given store and message. -/
def userMessageOf (store : DocumentStore) (message : String) : String :=
  buildUserMessage (ctxOf store message) (cleanedOf message)

/-- The fallback answer (`server.js:693-712`): composed sections when at least
one passage matched, otherwise the fixed no-matching-information message. -/
def fallbackAnswer (store : DocumentStore) (cleaned : String) : String :=
  let tops := topResults store cleaned.toList
  if tops.isEmpty then noMatchMsg else composeFallback cleaned tops

/-- Observable outcome of one `/api/chat` request. `completionCalled` records
whether the external completion service was invoked, `usedFallback` whether
the keyword search produced the answer. -/
structure ChatResult where
  status : Nat
  success : Bool
  answer : String
  completionCalled : Bool
  usedFallback : Bool
deriving Repr, DecidableEq

/-- Stages of the handler from the empty-context check onwards
(`server.js:533-719`); the completion service is modelled as an oracle:
`some content` is a successful call, `none` any failure (network, non-success
status, malformed response). -/
def answerStage (store : DocumentStore) (hasKey : Bool) (completion : Option String)
    (ctx cleaned : String) : ChatResult :=
  if strTrim ctx = "" then ⟨400, false, noDocsMsg, false, false⟩
  else if hasKey = false then ⟨500, false, apiKeyMsg, false, false⟩
  else
    match completion with
    | some content => ⟨200, true, strTrim content ++ groqNote, true, false⟩
    | none => ⟨200, true, fallbackAnswer store cleaned, true, true⟩

/-- The `/api/chat` handler (`server.js:456-813`): empty-store check, mention
resolution, context assembly, completion attempt and fallback. Session
persistence never changes the returned answer (`server.js:722-805`) and is
not modelled. -/
def chatHandler (store : DocumentStore) (hasKey : Bool) (completion : Option String)
    (message : String) : ChatResult :=
  if store.length = 0 then ⟨400, false, noDocsMsg, false, false⟩
  else
    match findMention message.toList with
    | some (_, tok, _) =>
        if (mentionTargets store tok).length = 0 then
          ⟨400, false, notFoundMsg (String.mk tok), false, false⟩
        else answerStage store hasKey completion (ctxOf store message) (cleanedOf message)
    | none => answerStage store hasKey completion (ctxOf store message) (cleanedOf message)

/-! ### Claims -/

/-- C6: for every question, if the document store is empty the request fails
immediately with the no-documents-available answer, before any extraction or
completion call is attempted (`completionCalled = false`; the chat path never
invokes extraction at all). -/
theorem c6_empty_store_short_circuits (hasKey : Bool) (completion : Option String)
    (message : String) :
    chatHandler [] hasKey completion message = ⟨400, false, noDocsMsg, false, false⟩ := rfl

/-- C7 (code bug): two distinct ingestion events for the same filename in the
same millisecond (`Date.now()` returning 123 for both) receive the same
generated id, and the second upsert silently overwrites the first record, so
ids are not unique under rapid re-ingestion. -/
theorem c7_same_millisecond_id_collision :
    makeDocId 123 "report.pdf" = makeDocId 123 "report.pdf"
    ∧ ("first contents" : String) ≠ "second contents"
    ∧ uploadStore (uploadStore [] 123 "report.pdf" "first contents")
        123 "report.pdf" "second contents"
      = [⟨"123-report.pdf", "report.pdf", "second contents", 123⟩] := by
  refine ⟨rfl, by decide, by decide⟩

/-- C9 counterexample: a file ingested through the `/api/upload` handler whose
extraction yields empty text is stored with `text = ""`, not with the
documented placeholder string. -/
theorem c9_counterexample_upload_stores_empty_text :
    uploadStore [] 5 "empty.pdf" "" = [⟨"5-empty.pdf", "empty.pdf", "", 5⟩]
    ∧ ("" : String) ≠ emptyPlaceholder "empty.pdf" := by
  refine ⟨by decide, by decide⟩

/-- C9 amended: for every file ingested through `processDocument` (the initial
directory scan and the filesystem watcher) whose extraction yields empty or
whitespace-only text, the stored record's text is the documented placeholder
string, which is never empty; the `/api/upload` handler, in contrast, stores
the raw extracted text. -/
theorem c9_amended_processDocument_stores_placeholder (store : DocumentStore)
    (now : Nat) (fileName extracted : String) (h : strTrim extracted = "") :
    processDocumentStore store now fileName extracted
      = upsert store ⟨makeDocId now fileName, fileName, emptyPlaceholder fileName, now⟩
    ∧ emptyPlaceholder fileName ≠ "" := by
  constructor
  · unfold processDocumentStore
    rw [if_pos h]
  · intro hc
    have hlen := congrArg String.length hc
    simp only [emptyPlaceholder, String.length_append] at hlen
    rw [show "[Empty or unreadable document: ".length = 31 from rfl,
      show "]".length = 1 from rfl, show "".length = 0 from rfl] at hlen
    omega

/-- Witness for C9 amended: whitespace-only extraction of `empty.pdf` stores
the placeholder record. -/
theorem c9_amended_witness :
    processDocumentStore [] 5 "empty.pdf" " "
      = upsert [] ⟨makeDocId 5 "empty.pdf", "empty.pdf", emptyPlaceholder "empty.pdf", 5⟩
    ∧ emptyPlaceholder "empty.pdf" ≠ "" :=
  c9_amended_processDocument_stores_placeholder [] 5 "empty.pdf" " " (by decide)

/-- C1 counterexample: with two records for `report.pdf` in the store (ids
`100-report.pdf` and the more recent `200-report.pdf`), the deletion branch
removes the oldest record and keeps the most recent one, contradicting the
claim that the most recent record is removed. -/
theorem c1_counterexample_removes_oldest :
    removeByFileName
        [⟨"100-report.pdf", "report.pdf", "old text", 100⟩,
         ⟨"200-report.pdf", "report.pdf", "new text", 200⟩] "report.pdf"
      = [⟨"200-report.pdf", "report.pdf", "new text", 200⟩]
    ∧ (100 : Nat) < 200
    ∧ removeByFileName [⟨"90-bba.pdf", "bba.pdf", "other", 90⟩] "a.pdf" = [] := by
  refine ⟨by decide, by decide, by decide⟩

/-- C1 amended: `removeByFileName` removes exactly the first record in store
enumeration order whose id contains the deleted filename as a substring (the
oldest matching record, and possibly a record derived from a different
filename whose id happens to contain the deleted name). -/
theorem c1_amended_removes_first_id_match (pre post : List DocRecord)
    (r : DocRecord) (fn : String)
    (hpre : ∀ x ∈ pre, strIncludes x.id fn = false)
    (hr : strIncludes r.id fn = true) :
    removeByFileName (pre ++ r :: post) fn = pre ++ post := by
  induction pre with
  | nil =>
      simp only [List.nil_append, removeByFileName, hr, if_pos]
  | cons x xs ih =>
      have hx : strIncludes x.id fn = false := hpre x (List.mem_cons_self x xs)
      simp only [List.cons_append, removeByFileName, hx, Bool.false_eq_true, if_false]
      rw [show xs.append (r :: post) = xs ++ r :: post from rfl,
        ih (fun y hy => hpre y (List.mem_cons_of_mem x hy))]

/-- Witness for C1 amended: a non-matching record is kept, the first matching
record (for a different filename whose id contains the deleted name) is
removed. -/
theorem c1_amended_witness :
    removeByFileName
        [⟨"50-other.docx", "other.docx", "o", 50⟩,
         ⟨"70-xreport.pdf", "xreport.pdf", "x", 70⟩,
         ⟨"80-report.pdf", "report.pdf", "r", 80⟩] "report.pdf"
      = [⟨"50-other.docx", "other.docx", "o", 50⟩,
         ⟨"80-report.pdf", "report.pdf", "r", 80⟩] :=
  c1_amended_removes_first_id_match
    [⟨"50-other.docx", "other.docx", "o", 50⟩]
    [⟨"80-report.pdf", "report.pdf", "r", 80⟩]
    ⟨"70-xreport.pdf", "xreport.pdf", "x", 70⟩ "report.pdf"
    (by decide) (by decide)

/-- Number of DISTINCT keywords present in the lowercased paragraph. Follows
the claim's words ("the number of distinct keywords ... present as
case-insensitive substrings") for comparison against the source's
`matchCountMult`, which counts keyword list entries with multiplicity. -/
def specDistinctMatchCount (kws : List (List Char)) (p : List Char) : Nat :=
  (kws.dedup.filter (fun k => chIncludes k (lowerL p))).length

/-- The paragraph score as the claim words it: `matchCount` taken as the
number of distinct matching keywords, plus the exponential, density and
heading bonuses. Follows the claim's words for comparison with `scoreOf`. -/
def specClaimScore (kws : List (List Char)) (p : List Char) : ℚ :=
  let m := specDistinctMatchCount kws p
  (m : ℚ) + (if 1 < m then (2 : ℚ) ^ (m - 1) else 0)
    + (if 1 < m then 500 / ((p.length : ℚ) + 1) else 0)
    + (if p.length < 200 ∧ 20 < p.length ∧ (p.contains ':' = true ∨ hasDoubleUpper p = true)
       then 2 else 0)

/-- The sequentially accumulated score of the source equals the closed sum
formula. -/
theorem scoreOf_closed (kws : List (List Char)) (p : List Char) :
    scoreOf kws p
      = (matchCountMult kws p : ℚ)
        + (if 1 < matchCountMult kws p then (2 : ℚ) ^ (matchCountMult kws p - 1) else 0)
        + (if 1 < matchCountMult kws p then 500 / ((p.length : ℚ) + 1) else 0)
        + (if p.length < 200 ∧ 20 < p.length
              ∧ (p.contains ':' = true ∨ hasDoubleUpper p = true)
           then 2 else 0) := by
  unfold scoreOf
  by_cases h1 : 1 < matchCountMult kws p
  · by_cases h2 : p.length < 200 ∧ 20 < p.length
        ∧ (p.contains ':' = true ∨ hasDoubleUpper p = true)
    · rw [if_pos h1, if_pos h1, if_pos h2, if_pos h1, if_pos h1, if_pos h2]
    · rw [if_pos h1, if_pos h1, if_neg h2, if_pos h1, if_pos h1, if_neg h2]
      ring
  · by_cases h2 : p.length < 200 ∧ 20 < p.length
        ∧ (p.contains ':' = true ∨ hasDoubleUpper p = true)
    · rw [if_neg h1, if_neg h1, if_pos h2, if_neg h1, if_neg h1, if_pos h2]
      ring
    · rw [if_neg h1, if_neg h1, if_neg h2, if_neg h1, if_neg h1, if_neg h2]
      ring

/-- C3 counterexample: for the question "the latency latency" the keyword list
is `["latency", "latency"]` (not deduplicated in the source), so a paragraph
containing "latency" once gets `matchCount = 2` and score
`2 + 2^1 + 500/43 = 672/43`, while the claimed formula with distinct keywords
(`matchCount = 1`) gives score `1`. -/
theorem c3_counterexample_duplicate_keywords :
    keywordsOf "the latency latency".toList = ["latency".toList, "latency".toList]
    ∧ matchCountMult (keywordsOf "the latency latency".toList)
        "this paragraph mentions latency right here".toList = 2
    ∧ specDistinctMatchCount (keywordsOf "the latency latency".toList)
        "this paragraph mentions latency right here".toList = 1
    ∧ fallbackMatches
        [⟨"1-a.pdf", "a.pdf", "this paragraph mentions latency right here", 1⟩]
        "the latency latency".toList
      = [⟨"this paragraph mentions latency right here".toList,
          scoreOf (keywordsOf "the latency latency".toList)
            "this paragraph mentions latency right here".toList, "a.pdf"⟩]
    ∧ scoreOf (keywordsOf "the latency latency".toList)
        "this paragraph mentions latency right here".toList = 672 / 43
    ∧ specClaimScore (keywordsOf "the latency latency".toList)
        "this paragraph mentions latency right here".toList = 1
    ∧ ((672 : ℚ) / 43) ≠ 1 := by
  have hm : matchCountMult (keywordsOf "the latency latency".toList)
      "this paragraph mentions latency right here".toList = 2 := by decide
  have hd : specDistinctMatchCount (keywordsOf "the latency latency".toList)
      "this paragraph mentions latency right here".toList = 1 := by decide
  have hlen : ("this paragraph mentions latency right here".toList).length = 42 := by
    decide
  have hcolon : ("this paragraph mentions latency right here".toList).contains ':'
      = false := by decide
  have hdu : hasDoubleUpper "this paragraph mentions latency right here".toList
      = false := by decide
  refine ⟨by decide, hm, hd, rfl, ?_, ?_, by norm_num⟩
  · rw [scoreOf_closed, hm, hlen, hcolon, hdu]
    norm_num
  · simp only [specClaimScore, hd, hlen, hcolon, hdu]
    norm_num

/-- C3 amended: every retained paragraph's score equals `matchCount` (the
number of keyword tokens of the lowercased question, each of length > 3,
counted WITH multiplicity, present as case-insensitive substrings), plus
`2^(matchCount-1)` when `matchCount > 1`, plus `500/(len+1)` when
`matchCount > 1`, plus a fixed heading bonus of 2 when the paragraph is
21–199 characters long and contains a colon or two consecutive uppercase
letters; paragraphs with `matchCount = 0` are skipped. -/
theorem c3_amended_scoring (store : DocumentStore) (q : List Char) :
    fallbackMatches store q
      = (store.map (fun d =>
          (keptParas d.text).filterMap (fun p =>
            let m := matchCountMult (keywordsOf q) p
            if m = 0 then none
            else some ⟨p,
              (m : ℚ) + (if 1 < m then (2 : ℚ) ^ (m - 1) else 0)
                + (if 1 < m then 500 / ((p.length : ℚ) + 1) else 0)
                + (if p.length < 200 ∧ 20 < p.length
                      ∧ (p.contains ':' = true ∨ hasDoubleUpper p = true)
                   then 2 else 0),
              d.name⟩))).flatten := by
  simp only [fallbackMatches]
  refine congrArg List.flatten (congrArg (fun f => List.map f store) ?_)
  funext d
  refine congrArg (fun f => List.filterMap f (keptParas d.text)) ?_
  funext p
  by_cases hm : matchCountMult (keywordsOf q) p = 0
  · simp [hm]
  · have hm' : 0 < matchCountMult (keywordsOf q) p := Nat.pos_of_ne_zero hm
    simp only [hm', if_pos, hm, if_neg, if_false, scoreOf_closed]

/-- C5 counterexample: "@report" matches both stored documents and the first
match in enumeration order is `report1.pdf`, yet when the completion call
fails the returned answer is composed from a passage of `report2.pdf` (the
fallback scans every document), so the first match is not the sole context
source of the answer. -/
theorem c5_counterexample_fallback_uses_other_documents :
    (mentionTargets
        [⟨"1-report1.pdf", "report1.pdf", "Nothing relevant in this one truly.", 1⟩,
         ⟨"2-report2.pdf", "report2.pdf",
           "This section discusses latency behavior in detail today.", 2⟩]
        "report".toList).head?
      = some ⟨"1-report1.pdf", "report1.pdf", "Nothing relevant in this one truly.", 1⟩
    ∧ strIncludes
        (chatHandler
          [⟨"1-report1.pdf", "report1.pdf", "Nothing relevant in this one truly.", 1⟩,
           ⟨"2-report2.pdf", "report2.pdf",
             "This section discusses latency behavior in detail today.", 2⟩]
          true none "@report explain latency tradeoffs").answer
        "This section discusses latency behavior in detail today." = true
    ∧ strIncludes
        (chatHandler
          [⟨"1-report1.pdf", "report1.pdf", "Nothing relevant in this one truly.", 1⟩,
           ⟨"2-report2.pdf", "report2.pdf",
             "This section discusses latency behavior in detail today.", 2⟩]
          true none "@report explain latency tradeoffs").answer
        "report2.pdf" = true
    ∧ strIncludes "Nothing relevant in this one truly."
        "This section discusses latency behavior in detail today." = false := by
  refine ⟨by decide, by decide, by decide, by decide⟩

/-- C5 amended: when a question's @mention target matches at least one stored
document, the first matching record in store enumeration order is the sole
context source of the completion prompt (the context string is exactly that
record's text); the fallback search, when triggered by a completion failure,
scans all stored documents instead. -/
theorem c5_amended_first_match_is_completion_context (store : DocumentStore)
    (message : String) (pre tok rest : List Char) (d0 : DocRecord)
    (hparse : findMention message.toList = some (pre, tok, rest))
    (hhead : (mentionTargets store tok).head? = some d0) :
    ctxOf store message = d0.text
    ∧ userMessageOf store message = buildUserMessage d0.text (cleanedOf message) := by
  have hctx : ctxOf store message = d0.text := by
    cases hmt : mentionTargets store tok with
    | nil => rw [hmt] at hhead; simp at hhead
    | cons a as =>
        rw [hmt] at hhead
        simp only [List.head?] at hhead
        injection hhead with ha
        simp only [ctxOf, hparse, hmt, ha]
  exact ⟨hctx, by unfold userMessageOf; rw [hctx]⟩

/-- Witness for C5 amended: with two matching documents the completion context
is the first record's text. -/
theorem c5_amended_witness :
    ctxOf
        [⟨"1-report1.pdf", "report1.pdf", "first text body", 1⟩,
         ⟨"2-report2.pdf", "report2.pdf", "second text body", 2⟩]
        "@report explain"
      = "first text body"
    ∧ userMessageOf
        [⟨"1-report1.pdf", "report1.pdf", "first text body", 1⟩,
         ⟨"2-report2.pdf", "report2.pdf", "second text body", 2⟩]
        "@report explain"
      = buildUserMessage "first text body" (cleanedOf "@report explain") :=
  c5_amended_first_match_is_completion_context
    [⟨"1-report1.pdf", "report1.pdf", "first text body", 1⟩,
     ⟨"2-report2.pdf", "report2.pdf", "second text body", 2⟩]
    "@report explain" [] "report".toList " explain".toList
    ⟨"1-report1.pdf", "report1.pdf", "first text body", 1⟩
    (by decide) (by decide)

/-- C2: for every question containing an @mention whose target matches no
stored document name (case-insensitive substring) against a non-empty store,
the request returns the user-facing "not found" answer with status 400, the
completion service is never called, and the fallback (full-corpus context) is
never reached. -/
theorem c2_mention_without_match_short_circuits (store : DocumentStore)
    (hasKey : Bool) (completion : Option String) (message : String)
    (pre tok rest : List Char)
    (hne : store ≠ [])
    (hparse : findMention message.toList = some (pre, tok, rest))
    (hno : ∀ r ∈ store, chIncludes (lowerL tok) (lowerL r.name.toList) = false) :
    chatHandler store hasKey completion message
      = ⟨400, false, notFoundMsg (String.mk tok), false, false⟩ := by
  have hlen : ¬ store.length = 0 := by
    simpa [List.length_eq_zero] using hne
  have hmt : mentionTargets store tok = [] := by
    unfold mentionTargets
    rw [List.filter_eq_nil_iff]
    intro a ha
    have hna := hno a ha
    simp only [String.toList] at hna
    simp [hna]
  unfold chatHandler
  rw [if_neg hlen, hparse]
  simp [hmt]

/-- Witness for C2: one stored document, a mention "@zzz" matching nothing. -/
theorem c2_witness :
    chatHandler [⟨"1-a.pdf", "a.pdf", "hello world text content here", 1⟩]
        true (some "answer") "@zzz what"
      = ⟨400, false, notFoundMsg (String.mk "zzz".toList), false, false⟩ :=
  c2_mention_without_match_short_circuits
    [⟨"1-a.pdf", "a.pdf", "hello world text content here", 1⟩]
    true (some "answer") "@zzz what" [] "zzz".toList " what".toList
    (by decide) (by decide) (by decide)

/-- C4: for every request that reaches the completion attempt (expressed as:
with a succeeding completion the handler would call the completion service),
a failing completion makes the pipeline execute the fallback search and
return a 200 success answer — the composed fallback answer, the fixed
no-matching-information message, or the generic apology — never an error. -/
theorem c4_completion_failure_never_propagates (store : DocumentStore)
    (message : String)
    (hreach : (chatHandler store true (some "x") message).completionCalled = true) :
    chatHandler store true none message
      = ⟨200, true, fallbackAnswer store (cleanedOf message), true, true⟩
    ∧ (fallbackAnswer store (cleanedOf message)
          = composeFallback (cleanedOf message)
              (topResults store (cleanedOf message).toList)
        ∨ fallbackAnswer store (cleanedOf message) = noMatchMsg
        ∨ fallbackAnswer store (cleanedOf message) = apologyMsg) := by
  constructor
  · unfold chatHandler answerStage at hreach ⊢
    by_cases h0 : store.length = 0
    · simp [h0] at hreach
    · cases hfm : findMention message.toList with
      | none =>
          rw [hfm] at hreach
          by_cases hctx : strTrim (ctxOf store message) = ""
          · simp [h0, hctx] at hreach
          · simp [h0, hctx]
      | some ptr =>
          obtain ⟨p, t, r⟩ := ptr
          rw [hfm] at hreach
          by_cases hm : (mentionTargets store t).length = 0
          · simp [h0, hm] at hreach
          · by_cases hctx : strTrim (ctxOf store message) = ""
            · simp [h0, hm, hctx] at hreach
            · simp [h0, hm, hctx]
  · unfold fallbackAnswer
    by_cases h : (topResults store (cleanedOf message).toList).isEmpty
    · rw [if_pos h]
      exact Or.inr (Or.inl rfl)
    · rw [if_neg h]
      exact Or.inl rfl

/-- Witness for C4: a one-document store and a plain question reach the
completion attempt; with a failing completion the fallback answers. -/
theorem c4_witness :
    chatHandler [⟨"1-a.pdf", "a.pdf", "hello world text content here", 1⟩]
        true none "tell me about content"
      = ⟨200, true,
          fallbackAnswer [⟨"1-a.pdf", "a.pdf", "hello world text content here", 1⟩]
            (cleanedOf "tell me about content"), true, true⟩
    ∧ (fallbackAnswer [⟨"1-a.pdf", "a.pdf", "hello world text content here", 1⟩]
          (cleanedOf "tell me about content")
        = composeFallback (cleanedOf "tell me about content")
            (topResults [⟨"1-a.pdf", "a.pdf", "hello world text content here", 1⟩]
              (cleanedOf "tell me about content").toList)
      ∨ fallbackAnswer [⟨"1-a.pdf", "a.pdf", "hello world text content here", 1⟩]
          (cleanedOf "tell me about content") = noMatchMsg
      ∨ fallbackAnswer [⟨"1-a.pdf", "a.pdf", "hello world text content here", 1⟩]
          (cleanedOf "tell me about content") = apologyMsg) :=
  c4_completion_failure_never_propagates
    [⟨"1-a.pdf", "a.pdf", "hello world text content here", 1⟩]
    "tell me about content" (by decide)

/-- A take-prefix is a `chPrefix`. -/
theorem chPrefix_take (n : Nat) (l : List Char) : chPrefix (l.take n) l = true := by
  induction l generalizing n with
  | nil => cases n <;> rfl
  | cons c cs ih =>
      cases n with
      | zero => rfl
      | succ k =>
          simp only [List.take_succ_cons, chPrefix, beq_self_eq_true, Bool.true_and]
          exact ih k

/-- C10: the user prompt sent to the completion service embeds exactly the
first (at most) 1500 characters of the assembled document context, while the
fallback search scans the full, untruncated text of every stored document:
every kept paragraph of every stored document with a keyword match appears in
the fallback's scored passages. -/
theorem c10_prompt_truncated_fallback_full (store : DocumentStore)
    (ctx cleaned : String) (q : List Char) (d : DocRecord) (p : List Char)
    (hd : d ∈ store) (hp : p ∈ keptParas d.text)
    (hm : 0 < matchCountMult (keywordsOf q) p) :
    buildUserMessage ctx cleaned
      = "I have the following document content:\n" ++ strTake ctx 1500
          ++ " //User Role: Provides truncated document context (1,500 chars) and the question.\n\nMy question is: "
          ++ cleaned
          ++ "\n\nPlease answer based only on the information in these documents."
    ∧ (strTake ctx 1500).length ≤ 1500
    ∧ chPrefix (strTake ctx 1500).toList ctx.toList = true
    ∧ (⟨p, scoreOf (keywordsOf q) p, d.name⟩ : RankedPassage)
        ∈ fallbackMatches store q := by
  refine ⟨rfl, ?_, ?_, ?_⟩
  · show (String.mk (ctx.toList.take 1500)).length ≤ 1500
    rw [show (String.mk (ctx.toList.take 1500)).length = (ctx.toList.take 1500).length
        from rfl]
    rw [List.length_take]
    exact Nat.min_le_left _ _
  · exact chPrefix_take 1500 ctx.toList
  · simp only [fallbackMatches]
    rw [List.mem_flatten]
    refine ⟨(keptParas d.text).filterMap (fun p =>
      if 0 < matchCountMult (keywordsOf q) p
      then some ⟨p, scoreOf (keywordsOf q) p, d.name⟩ else none),
      List.mem_map_of_mem _ hd, ?_⟩
    rw [List.mem_filterMap]
    exact ⟨p, hp, by rw [if_pos hm]⟩

/-- Witness for C10: a concrete store, document and matching paragraph. -/
theorem c10_witness :
    buildUserMessage "some context" "a question"
      = "I have the following document content:\n" ++ strTake "some context" 1500
          ++ " //User Role: Provides truncated document context (1,500 chars) and the question.\n\nMy question is: "
          ++ "a question"
          ++ "\n\nPlease answer based only on the information in these documents."
    ∧ (strTake "some context" 1500).length ≤ 1500
    ∧ chPrefix (strTake "some context" 1500).toList "some context".toList = true
    ∧ (⟨"This paragraph definitely mentions latency today.".toList,
        scoreOf (keywordsOf "latency facts".toList)
          "This paragraph definitely mentions latency today.".toList,
        "a.pdf"⟩ : RankedPassage)
        ∈ fallbackMatches
            [⟨"1-a.pdf", "a.pdf", "This paragraph definitely mentions latency today.", 1⟩]
            "latency facts".toList :=
  c10_prompt_truncated_fallback_full
    [⟨"1-a.pdf", "a.pdf", "This paragraph definitely mentions latency today.", 1⟩]
    "some context" "a question" "latency facts".toList
    ⟨"1-a.pdf", "a.pdf", "This paragraph definitely mentions latency today.", 1⟩
    "This paragraph definitely mentions latency today.".toList
    (by decide) (by decide) (by decide)

/-- The first element surviving `dropWhile` fails the predicate. -/
theorem head_dropWhile_false (p : Char → Bool) (l : List Char) :
    ∀ d ∈ (l.dropWhile p).head?, p d = false := by
  induction l with
  | nil => intro d hd; simp [List.dropWhile] at hd
  | cons c cs ih =>
      intro d hd
      simp only [List.dropWhile_cons] at hd
      by_cases h : p c
      · rw [if_pos h] at hd
        exact ih d hd
      · rw [if_neg h] at hd
        simp only [List.head?_cons, Option.mem_def, Option.some.injEq] at hd
        rw [← hd]
        exact Bool.not_eq_true _ ▸ Bool.of_not_eq_true h

/-- No earlier position of `pre` starts a mention: every `'@'` inside `pre`
is followed by a whitespace character (relative to the continuation `next`).
`next` is the part of the question from the matched `'@'` on. -/
def noEarlierMention (pre next : List Char) : Prop :=
  ∀ p1 p2, pre = p1 ++ '@' :: p2 →
    ∃ d, (p2 ++ next).head? = some d ∧ wsChar d = true

/-- A question without `'@'` has no mention match. -/
theorem findMention_none_of_no_at (cs : List Char) (h : '@' ∉ cs) :
    findMention cs = none := by
  induction cs with
  | nil => rfl
  | cons c cs ih =>
      have hc : ¬ c = '@' := fun he => h (he ▸ List.mem_cons_self c cs)
      have h' : '@' ∉ cs := fun hm => h (List.mem_cons_of_mem c hm)
      have hb : (c == '@') = false := by simp [hc]
      unfold findMention
      rw [hb]
      simp only [Bool.false_and, Bool.false_eq_true, if_false, ih h']

/-- Soundness of the mention parser: a match decomposes the question as
`pre ++ '@' :: tok ++ rest` where `tok` is a nonempty maximal run of
non-whitespace characters and no earlier `'@'` starts a token. -/
theorem findMention_sound (cs pre tok rest : List Char)
    (h : findMention cs = some (pre, tok, rest)) :
    cs = pre ++ '@' :: (tok ++ rest)
    ∧ tok ≠ []
    ∧ (∀ x ∈ tok, wsChar x = false)
    ∧ (∀ d ∈ rest.head?, wsChar d = true)
    ∧ noEarlierMention pre ('@' :: (tok ++ rest)) := by
  induction cs generalizing pre tok rest with
  | nil => simp [findMention] at h
  | cons c cs ih =>
      unfold findMention at h
      by_cases hcond : (c == '@' && !(cs.takeWhile (fun d => !wsChar d)).isEmpty) = true
      · rw [if_pos hcond] at h
        rw [Option.some.injEq, Prod.mk.injEq, Prod.mk.injEq] at h
        obtain ⟨h1, h2, h3⟩ := h
        subst h1 h2 h3
        obtain ⟨hat, hne⟩ := Bool.and_eq_true_iff.mp hcond
        have hcat : c = '@' := by simpa using hat
        have htw : (cs.takeWhile (fun d => !wsChar d)) ≠ [] := by
          intro hczero
          rw [hczero] at hne
          simp at hne
        refine ⟨?_, htw, ?_, ?_, ?_⟩
        · rw [List.nil_append, hcat, List.takeWhile_append_dropWhile]
        · intro x hx
          have := List.mem_takeWhile_imp hx
          simpa using this
        · intro d hd
          have := head_dropWhile_false (fun d => !wsChar d) cs d hd
          simpa using this
        · intro p1 p2 hsplit
          exact absurd hsplit (by cases p1 <;> simp)
      · rw [if_neg hcond] at h
        cases hfm : findMention cs with
        | none => rw [hfm] at h; simp at h
        | some ptr =>
            obtain ⟨p', t', r'⟩ := ptr
            rw [hfm] at h
            rw [Option.some.injEq, Prod.mk.injEq, Prod.mk.injEq] at h
            obtain ⟨h1, h2, h3⟩ := h
            subst h1 h2 h3
            obtain ⟨e1, e2, e3, e4, e5⟩ := ih p' t' r' hfm
            refine ⟨by rw [List.cons_append, e1], e2, e3, e4, ?_⟩
            intro p1 p2 hsplit
            cases p1 with
            | nil =>
                rw [List.nil_append] at hsplit
                rw [List.cons.injEq] at hsplit
                obtain ⟨hc, hp2⟩ := hsplit
                have htw : (cs.takeWhile (fun d => !wsChar d)) = [] := by
                  rw [hc] at hcond
                  by_cases hz : (cs.takeWhile (fun d => !wsChar d)) = []
                  · exact hz
                  · exact absurd (by simpa [List.isEmpty_iff] using hz
                      : (!(cs.takeWhile (fun d => !wsChar d)).isEmpty) = true)
                      (fun hb => hcond (by simp [hb]))
                have hcs : cs = p2 ++ '@' :: (t' ++ r') := by rw [← hp2]; exact e1
                cases hp2e : p2 with
                | nil =>
                    rw [hp2e, List.nil_append] at hcs
                    rw [hcs] at htw
                    simp [List.takeWhile_cons, wsChar] at htw
                | cons a as =>
                    rw [hp2e, List.cons_append] at hcs
                    rw [hcs, List.takeWhile_cons] at htw
                    have hwa : wsChar a = true := by
                      by_cases hw : wsChar a
                      · exact hw
                      · rw [if_pos (by simp [hw])] at htw
                        simp at htw
                    refine ⟨a, rfl, hwa⟩
            | cons b p1' =>
                rw [List.cons_append, List.cons.injEq] at hsplit
                obtain ⟨hb, hp'⟩ := hsplit
                exact e5 p1' p2 hp'

/-- C8: for every question string, if it contains an `@token` (a contiguous
non-whitespace run after `'@'`), the parser returns the first such token and
the cleaned message is the question with that `"@token"` substring removed
and trimmed; if no `'@'` is present at all, the cleaned message equals the
original question. -/
theorem c8_mention_parsing (message : String) :
    ('@' ∉ message.toList →
      findMention message.toList = none ∧ cleanedOf message = message)
    ∧ (∀ pre tok rest, findMention message.toList = some (pre, tok, rest) →
        message.toList = pre ++ '@' :: (tok ++ rest)
        ∧ tok ≠ []
        ∧ (∀ x ∈ tok, wsChar x = false)
        ∧ (∀ d ∈ rest.head?, wsChar d = true)
        ∧ noEarlierMention pre ('@' :: (tok ++ rest))
        ∧ cleanedOf message = String.mk (trimChars (pre ++ rest))) := by
  constructor
  · intro h
    have hn := findMention_none_of_no_at _ h
    refine ⟨hn, ?_⟩
    unfold cleanedOf
    rw [hn]
  · intro pre tok rest h
    obtain ⟨e1, e2, e3, e4, e5⟩ := findMention_sound _ _ _ _ h
    refine ⟨e1, e2, e3, e4, e5, ?_⟩
    unfold cleanedOf
    rw [h]

/-- Witness for C8: the question "@report summarize" parses to target
"report" with cleaned message "summarize"; a question with no `'@'` is left
unchanged. -/
theorem c8_witness :
    findMention "@report summarize".toList
      = some ([], "report".toList, " summarize".toList)
    ∧ "@report summarize".toList
      = [] ++ '@' :: ("report".toList ++ " summarize".toList)
    ∧ cleanedOf "@report summarize" = "summarize"
    ∧ cleanedOf "no mention here" = "no mention here" := by
  have h2 := (c8_mention_parsing "@report summarize").2
    [] "report".toList " summarize".toList (by decide)
  have h1 := (c8_mention_parsing "no mention here").1 (by decide)
  exact ⟨by decide, h2.1, h2.2.2.2.2.2.trans (by decide), h1.2⟩

end ExplainX
